import Mathlib

/-! # etask_ota: version parsing, version comparison and the firmware download loop

A shallow embedding of `src/etask_ota.cpp`.

Conventions of the embedding.

* Memory holding characters is a `List Char`.  A C string is read from such a
  list up to the first NUL character; the end of the list also terminates it.
* The C `int` is 32 bits wide.  Values that the code stores in an `int` are
  integers in `[-2^31, 2^31)`; the one place where the code can leave that
  range (`current_size += got`) is reduced with `wrap32`.
* Uninitialised memory (`char number[16]` in `parse_version`,
  `char latest[VERSION_LENGTH]` in `ota_update_check`) is an explicit argument:
  the characters found at that address, followed by whatever lies behind it.
* Constants of the missing header `etask_ota.h` (`VERSION_LENGTH`,
  `AUTO_VERSION`, the URL templates) are arguments.
-/

namespace EtaskOta

/-! ## C library primitives -/

/-- The string terminator. -/
def NUL : Char := Char.ofNat 0

/-- The C string stored at the start of a piece of memory. -/
def cstr : List Char → List Char
  | [] => []
  | c :: cs => if c = NUL then [] else c :: cstr cs

/-- C `strchr(s, c)` for a character `c` other than NUL: the offset of the first
occurrence of `c` in the C string at `s`, or `none` for a null pointer. -/
def strchr : List Char → Char → Option Nat
  | [], _ => none
  | x :: xs, c =>
    if x = c then some 0
    else if x = NUL then none
    else (strchr xs c).map (· + 1)

/-- C `strncpy(dst, src, n)`: the memory at `dst` afterwards.  At most `n`
characters of the C string at `src` are copied, the rest of the `n` bytes is
filled with NUL, and no terminator is added when `src` has `n` or more
characters. -/
def strncpy (dst src : List Char) (n : Nat) : List Char :=
  let body := (cstr src).take n
  body ++ List.replicate (n - body.length) NUL ++ dst.drop n

/-- C `isspace` in the "C" locale. -/
def isspace (c : Char) : Bool :=
  c = ' ' || (9 ≤ c.toNat && c.toNat ≤ 13)

/-- C `isdigit`. -/
def isdigit (c : Char) : Bool :=
  48 ≤ c.toNat && c.toNat ≤ 57

/-- The digit loop of `strtol` in base 10: accumulates the leading decimal
digits of the memory onto `acc` and stops at the first other character. -/
def digits (acc : Nat) : List Char → Nat
  | [] => acc
  | c :: cs => if isdigit c then digits (acc * 10 + (c.toNat - 48)) cs else acc

/-- Largest value of a 32-bit `int`. -/
def INT_MAX : Int := 2147483647

/-- Smallest value of a 32-bit `int`. -/
def INT_MIN : Int := -2147483648

/-- C `atoi` as the ESP32 C library provides it, `(int) strtol(s, NULL, 10)`
with a 32-bit `long`: leading white space is skipped, an optional sign is read,
then the decimal digits; a value out of range saturates. -/
def atoi (s : List Char) : Int :=
  match s.dropWhile isspace with
  | [] => 0
  | c :: r =>
    if c = '-' then max (-(digits 0 r : Int)) INT_MIN
    else if c = '+' then min (digits 0 r : Int) INT_MAX
    else min (digits 0 (c :: r) : Int) INT_MAX

/-- C `strcmp`: negative, zero or positive as the C string at `a` is less than,
equal to or greater than the one at `b` (characters compared by code). -/
def strcmp : List Char → List Char → Int
  | [], [] => 0
  | [], y :: _ => if y = NUL then 0 else -1
  | x :: _, [] => if x = NUL then 0 else 1
  | x :: xs, y :: ys =>
    if x = y then (if x = NUL then 0 else strcmp xs ys)
    else if x.toNat < y.toNat then -1 else 1

/-! ## parse_version -/

/-- The five outputs of `parse_version` (`major`, `minor`, `point`, `step`
passed by reference, and the `hash` buffer read as a C string). -/
structure ParsedVersion where
  major : Int
  minor : Int
  point : Int
  step : Int
  hash : List Char
  deriving DecidableEq

/-- The `return` through which `parse_version` leaves. -/
inductive Exit where
  /-- Line 122: empty string or first character not `v`. -/
  | no_v
  /-- Line 132: no `.` after the major, or more than 16 characters before it. -/
  | bad_major
  /-- Line 142: no second `.`, or more than 16 characters before it. -/
  | bad_minor
  /-- Line 152: no `-` after the second `.`; release version. -/
  | release
  /-- Line 160: no second `-`, or more than 16 characters before it. -/
  | bad_step
  /-- Line 179: the sanity check fired. -/
  | sanity
  /-- Line 181: end of the function on the development path. -/
  | dev
  deriving DecidableEq

/-- The fail state set up at lines 114-118. -/
def fail_state : ParsedVersion := ⟨-1, -1, -1, -1, []⟩

/-- `parse_version(verstr, major, minor, point, step, hash)`, lines 107-181.
`number` is the content of the uninitialised local `char number[16]` and of the
memory behind it at entry.  The result is the `return` taken and the values of
the output parameters at that point. -/
def parse_version (number verstr : List Char) : Exit × ParsedVersion :=
  let out : ParsedVersion := fail_state
  match verstr with
  | [] => (Exit.no_v, out)
  | v :: start =>
    if ¬ (v ≠ NUL ∧ v = 'v') then (Exit.no_v, out) else
    -- first integer (Major)
    match strchr start '.' with
    | none => (Exit.bad_major, out)
    | some n1 =>
      if n1 > 16 then (Exit.bad_major, out) else
      let number := strncpy number start n1
      let out := { out with major := atoi number }
      -- second integer (Minor)
      let istart := start.drop (n1 + 1)
      match strchr istart '.' with
      | none => (Exit.bad_minor, out)
      | some n2 =>
        if n2 > 16 then (Exit.bad_minor, out) else
        let number := strncpy number istart n2
        let out := { out with minor := atoi number }
        -- third integer (Point)
        let istart := istart.drop (n2 + 1)
        match strchr istart '-' with
        | none => (Exit.release, { out with point := atoi istart })
        | some n3 =>
          let istart := istart.drop (n3 + 1)
          match strchr istart '-' with
          | none => (Exit.bad_step, out)
          | some n4 =>
            if n4 > 16 then (Exit.bad_step, out) else
            let number := strncpy number istart n4
            let out := { out with step := atoi number }
            let out := { out with hash := cstr (istart.drop (n4 + 1)) }
            -- sanity check
            if out.major = 0 ∧ out.minor = 0 ∧ out.point = 0 then
              (Exit.sanity, fail_state)
            else (Exit.dev, out)

/-! ## vercmp -/

/-- `vercmp(current, target)`, lines 188-219.  `c_number` and `t_number` are
the contents of the uninitialised buffer `number` in the first and in the second
call of `parse_version`. -/
def vercmp (c_number t_number current target : List Char) : Int :=
  let c := (parse_version c_number current).2
  let t := (parse_version t_number target).2
  if t.major > c.major then 1
  else if t.major < c.major then -1
  else if t.minor > c.minor then 1
  else if t.minor < c.minor then -1
  else if t.point > c.point then 1
  else if t.point < c.point then -1
  else if t.step > c.step then 1
  else if t.step < c.step then -1
  else if strcmp t.hash c.hash = 0 then 0
  else 100

/-- A `number` buffer of sixteen NUL bytes. -/
def zeroed : List Char := List.replicate 16 NUL

/-- The content of the local buffer `number` when `parse_version` returns
(lines 134, 144, 162): the fields copied so far, each over the start of the
buffer, without terminator. -/
def number_left (number verstr : List Char) : List Char :=
  match verstr with
  | [] => number
  | v :: start =>
    if ¬ (v ≠ NUL ∧ v = 'v') then number else
    match strchr start '.' with
    | none => number
    | some n1 =>
      if n1 > 16 then number else
      let number := strncpy number start n1
      let istart := start.drop (n1 + 1)
      match strchr istart '.' with
      | none => number
      | some n2 =>
        if n2 > 16 then number else
        let number := strncpy number istart n2
        let istart := istart.drop (n2 + 1)
        match strchr istart '-' with
        | none => number
        | some n3 =>
          let istart := istart.drop (n3 + 1)
          match strchr istart '-' with
          | none => number
          | some n4 =>
            if n4 > 16 then number else
            strncpy number istart n4

/-- `vercmp(current, target)` as it runs: both calls of `parse_version` are
made from the same frame, so the uninitialised `number` of the second call is
the stack slot the first call used and holds what that call left there. -/
def vercmp_same_slot (number current target : List Char) : Int :=
  vercmp number (number_left number current) current target

/-! ## ota_update -/

/-- The value a 32-bit `int` holds after an integer result is stored in it. -/
def wrap32 (x : Int) : Int := (x + 2147483648) % 4294967296 - 2147483648

/-- The calls `ota_update` makes to the firmware writer and to the device. -/
inductive Event where
  /-- The call `Update.write(buff, got)`. -/
  | write (got : Nat)
  /-- The call `Update.end()`. -/
  | finalize
  /-- The call `ESP.restart()`. -/
  | restart
  deriving DecidableEq

/-- What the collaborators answer during one iteration of the loop
`while (https.connected())`. -/
structure Poll where
  /-- Result of `stream->available()`. -/
  avail : Nat
  /-- Number of bytes the stream hands over before `readBytes` gives up. -/
  delivered : Nat
  /-- Result of `Update.write` (the code does not look at it). -/
  written : Nat
  /-- Result of `Update.end()`. -/
  end_ok : Bool
  /-- Result of `Update.isFinished()`. -/
  isFinished : Bool
  /-- Result of `Update.canRollBack()`. -/
  canRollBack : Bool
  deriving DecidableEq

/-- The call `stream->readBytes(buff, len)`: at most `len` bytes are read. -/
def readBytes (p : Poll) (len : Nat) : Nat := min len p.delivered

/-- The loop of lines 34-58, one `Poll` per iteration in which
`https.connected()` holds; the connection is closed when the list is used up.
The first argument is `total_size`, the second `current_size`.  The result is
the sequence of calls made; `ESP.restart()` does not return. -/
def download (total_size : Int) : Int → List Poll → List Event
  | _, [] => []
  | current_size, p :: ps =>
    if p.avail ≠ 0 then
      let got := readBytes p (if p.avail > 128 then 128 else p.avail)
      let current_size := wrap32 (current_size + got)
      if current_size = total_size then
        if p.end_ok then
          if p.isFinished && p.canRollBack then
            [Event.write got, Event.finalize, Event.restart]
          else
            Event.write got :: Event.finalize :: download total_size current_size ps
        else
          Event.write got :: Event.finalize :: download total_size current_size ps
      else
        Event.write got :: download total_size current_size ps
    else
      download total_size current_size ps

/-- `ota_update(url)`, lines 22-66: `httpCode` is the result of `https.GET()`,
`total_size` that of `https.getSize()`, `begin_ok` that of
`Update.begin(total_size)`. -/
def ota_update (httpCode total_size : Int) (begin_ok : Bool) (polls : List Poll) :
    List Event :=
  if httpCode = 200 then
    if begin_ok then download total_size 0 polls else []
  else []

/-- Bytes read from the stream in one iteration. -/
def bytes_read (p : Poll) : Nat :=
  if p.avail ≠ 0 then readBytes p (if p.avail > 128 then 128 else p.avail) else 0

/-- Bytes read from the stream over a sequence of iterations. -/
def received (polls : List Poll) : Nat := (polls.map bytes_read).sum

/-- An iteration that reads a full buffer of 128 bytes, in a session where
`Update.end()` succeeds and `Update.canRollBack()` answers false. -/
def full_read : Poll := ⟨128, 128, 128, true, true, false⟩

/-! ## ota_update_check -/

/-- Arduino `String::trim`: white space is removed at both ends. -/
def trim (s : List Char) : List Char :=
  ((s.dropWhile isspace).reverse.dropWhile isspace).reverse

/-- `ota_update_check()`, lines 69-100.  `latest` is the content of the
uninitialised buffer `char latest[VERSION_LENGTH]` and of the memory behind it,
`OTA_FIRMWARE_URL` builds the firmware URL from the version string.  The result
is the URL with which `ota_update` is called, or `none` when it is not
called. -/
def ota_update_check (VERSION_LENGTH : Nat) (AUTO_VERSION : List Char)
    (OTA_FIRMWARE_URL : List Char → List Char) (latest : List Char)
    (httpCode : Int) (payload : List Char) : Option (List Char) :=
  if httpCode = 200 then
    let payload := trim payload
    let latest := strncpy latest payload VERSION_LENGTH
    if strcmp latest AUTO_VERSION ≠ 0 then
      some (OTA_FIRMWARE_URL (cstr latest))
    else none
  else none

/-- What the collaborators answer during one pass of the loop of `etask_ota`:
the version check (`httpCode`, `payload`, and the content `latest` of the
uninitialised buffer) and, if it comes to that, the firmware request. -/
structure Cycle where
  /-- Result of `https.GET()` in `ota_update_check`. -/
  httpCode : Int
  /-- Result of `https.getString()` in `ota_update_check`. -/
  payload : List Char
  /-- Content of the uninitialised buffer `latest`. -/
  latest : List Char
  /-- Result of `https.GET()` in `ota_update`. -/
  fw_httpCode : Int
  /-- Result of `https.getSize()` in `ota_update`. -/
  total_size : Int
  /-- Result of `Update.begin(total_size)`. -/
  begin_ok : Bool
  /-- The iterations of the download loop. -/
  polls : List Poll

/-- One call of `ota_update_check()` together with the call of `ota_update`
it makes at line 92: the URL of the download started (if any) and the calls made
by the download session. -/
def ota_check_and_update (VERSION_LENGTH : Nat) (AUTO_VERSION : List Char)
    (OTA_FIRMWARE_URL : List Char → List Char) (c : Cycle) :
    Option (List Char) × List Event :=
  match ota_update_check VERSION_LENGTH AUTO_VERSION OTA_FIRMWARE_URL c.latest
      c.httpCode c.payload with
  | some url => (some url, ota_update c.fw_httpCode c.total_size c.begin_ok c.polls)
  | none => (none, [])

/-- `etask_ota`, lines 11-20, over the passes of its endless loop that are
given: one `ota_update_check()` per pass, until a pass restarts the device. -/
def etask_ota (VERSION_LENGTH : Nat) (AUTO_VERSION : List Char)
    (OTA_FIRMWARE_URL : List Char → List Char) :
    List Cycle → List (Option (List Char) × List Event)
  | [] => []
  | c :: cs =>
    let r := ota_check_and_update VERSION_LENGTH AUTO_VERSION OTA_FIRMWARE_URL c
    if Event.restart ∈ r.2 then [r]
    else r :: etask_ota VERSION_LENGTH AUTO_VERSION OTA_FIRMWARE_URL cs

/-- A pass that fetches "v1.2.4" with status 200 and downloads 128 bytes in a
session where `Update.canRollBack()` answers false. -/
def stuck_cycle : Cycle :=
  ⟨200, "v1.2.4\n".toList, List.replicate 32 NUL, 200, 128, true, [full_read]⟩

/-- The value of `current_size` after the given iterations of the loop of
lines 34-58 (lines 35-39), when no restart ends the session before. -/
def current_size_after : Int → List Poll → Int
  | current_size, [] => current_size
  | current_size, p :: ps =>
    if p.avail ≠ 0 then
      let got := readBytes p (if p.avail > 128 then 128 else p.avail)
      current_size_after (wrap32 (current_size + got)) ps
    else current_size_after current_size ps

/-- The same iteration with another result of `Update.write`. -/
def with_written (f : Poll → Nat) (p : Poll) : Poll := { p with written := f p }

/-- `parse_version` with the sanity block of lines 169-180 removed. -/
def parse_version_no_sanity (number verstr : List Char) : Exit × ParsedVersion :=
  let out : ParsedVersion := fail_state
  match verstr with
  | [] => (Exit.no_v, out)
  | v :: start =>
    if ¬ (v ≠ NUL ∧ v = 'v') then (Exit.no_v, out) else
    match strchr start '.' with
    | none => (Exit.bad_major, out)
    | some n1 =>
      if n1 > 16 then (Exit.bad_major, out) else
      let number := strncpy number start n1
      let out := { out with major := atoi number }
      let istart := start.drop (n1 + 1)
      match strchr istart '.' with
      | none => (Exit.bad_minor, out)
      | some n2 =>
        if n2 > 16 then (Exit.bad_minor, out) else
        let number := strncpy number istart n2
        let out := { out with minor := atoi number }
        let istart := istart.drop (n2 + 1)
        match strchr istart '-' with
        | none => (Exit.release, { out with point := atoi istart })
        | some n3 =>
          let istart := istart.drop (n3 + 1)
          match strchr istart '-' with
          | none => (Exit.bad_step, out)
          | some n4 =>
            if n4 > 16 then (Exit.bad_step, out) else
            let number := strncpy number istart n4
            let out := { out with step := atoi number }
            let out := { out with hash := cstr (istart.drop (n4 + 1)) }
            (Exit.dev, out)

/-- Decimal rendering of a non-negative field. -/
def decimal (n : Int) : List Char := (Nat.repr n.toNat).toList

/-- Modelled from the spec: the rendering `to_string` of the round-trip
property, which the source does not contain: "v<major>.<minor>.<patch>" for a
release record (distance and hash absent),
"v<major>.<minor>.<patch>-<distance>-<hash>" for a development record. -/
def to_string (v : ParsedVersion) : List Char :=
  'v' :: decimal v.major ++ '.' :: decimal v.minor ++ '.' :: decimal v.point ++
    (if v.step = -1 ∧ v.hash = [] then []
     else '-' :: decimal v.step ++ '-' :: v.hash)

/-- The reference comparison, following the specification's words: the fields
`(major, minor, patch, distance)` are compared most significant first and the
first differing field decides Newer (1, target greater) or Older (-1); when all
four agree the result is EqualIdentical (0) for equal hashes and
EqualDivergentHash (100) otherwise. -/
def compare_reference (c t : ParsedVersion) : Int :=
  match [(c.major, t.major), (c.minor, t.minor), (c.point, t.point),
      (c.step, t.step)].find? (fun p => decide (p.1 ≠ p.2)) with
  | some (x, y) => if x < y then 1 else -1
  | none => if t.hash = c.hash then 0 else 100

/-! ## Lemmas on the primitives -/

theorem digits_ge (l : List Char) : ∀ acc : Nat, acc ≤ digits acc l := by
  induction l with
  | nil => intro acc; simp [digits]
  | cons c cs ih =>
    intro acc
    unfold digits
    split
    · exact le_trans (by omega) (ih _)
    · exact le_refl _

/-- `atoi` on memory that starts with a decimal digit. -/
theorem atoi_of_digit (c : Char) (r : List Char) (h : isdigit c = true) :
    atoi (c :: r) = min (digits (c.toNat - 48) r : Int) INT_MAX := by
  have h1 : isspace c = false := by
    simp only [isdigit, Bool.and_eq_true, decide_eq_true_eq] at h
    have h2 : c ≠ ' ' := by
      rintro rfl
      revert h; decide
    simp [isspace, h2]
    omega
  have h3 : c ≠ '-' := by rintro rfl; revert h; decide
  have h4 : c ≠ '+' := by rintro rfl; revert h; decide
  simp [atoi, List.dropWhile, h1, h3, h4, digits, h]

theorem atoi_digit_ge (c : Char) (r : List Char) (h : isdigit c = true) (k : Nat)
    (hk : k ≤ c.toNat - 48) : (k : Int) ≤ atoi (c :: r) := by
  rw [atoi_of_digit c r h]
  have h1 := digits_ge r (c.toNat - 48)
  simp only [isdigit, Bool.and_eq_true, decide_eq_true_eq] at h
  simp only [INT_MAX]
  omega

theorem strcmp_eq_zero_iff (a : List Char) : ∀ b, strcmp a b = 0 ↔ cstr a = cstr b := by
  induction a with
  | nil =>
    intro b
    cases b with
    | nil => simp [strcmp, cstr]
    | cons y ys =>
      by_cases hy : y = NUL <;> simp [strcmp, cstr, hy]
  | cons x xs ih =>
    intro b
    cases b with
    | nil =>
      by_cases hx : x = NUL <;> simp [strcmp, cstr, hx]
    | cons y ys =>
      by_cases hxy : x = y
      · subst hxy
        by_cases hx : x = NUL <;> simp [strcmp, cstr, hx, ih]
      · by_cases hx : x = NUL <;> by_cases hy : y = NUL <;>
          simp [strcmp, cstr, hx, hy, hxy] <;> split_ifs <;> simp_all

theorem cstr_idem (a : List Char) : cstr (cstr a) = cstr a := by
  induction a with
  | nil => simp [cstr]
  | cons x xs ih =>
    by_cases hx : x = NUL <;> simp [cstr, hx, ih]

/-- The hash output of `parse_version` is a C string: it holds no NUL. -/
theorem parse_version_hash_cstr (number verstr : List Char) :
    cstr (parse_version number verstr).2.hash = (parse_version number verstr).2.hash := by
  cases verstr with
  | nil => simp [parse_version, fail_state, cstr]
  | cons v start =>
    simp only [parse_version]
    repeat' split
    all_goals simp [fail_state, cstr, cstr_idem]

/-! ## Claims on parse_version and vercmp -/

/-- C2 (evaluation at the failing input): on the development string
"v1.2.56-12-abcd563" the patch output is never assigned: it is still -1 at the
end, whatever the buffer `number` held, and from a zeroed buffer the outputs
are major 1, minor 2, patch -1, distance 12, hash "abcd563". -/
theorem parse_version_dev_point_unset :
    (∀ number, (parse_version number "v1.2.56-12-abcd563".toList).2.point = -1) ∧
    parse_version zeroed "v1.2.56-12-abcd563".toList
      = (Exit.dev, ⟨1, 2, -1, 12, "abcd563".toList⟩) := by
  refine ⟨fun number => ?_, by decide⟩
  simp [parse_version, strchr, NUL, fail_state]

/-- C3 (evaluation at the failing input): on the release string "v12.3.4"
(two-digit major, one-digit minor) the minor output is at least 32, not 3,
whatever the buffer `number` held: the character `2` of the major is still in
the buffer behind the copied `3`.  From a zeroed buffer the outputs are
major 12, minor 32, patch 4. -/
theorem parse_version_stale_minor :
    (∀ number, 32 ≤ (parse_version number "v12.3.4".toList).2.minor) ∧
    parse_version zeroed "v12.3.4".toList = (Exit.release, ⟨12, 32, 4, -1, []⟩) := by
  refine ⟨fun number => ?_, by decide⟩
  simp [parse_version, strchr, NUL, fail_state, strncpy, cstr]
  rw [atoi_of_digit _ _ (by decide)]
  have h := digits_ge (List.drop 2 number) 32
  have e : digits ('3'.toNat - 48) ('2' :: List.drop 2 number)
      = digits 32 (List.drop 2 number) := by
    simp [digits, isdigit]
  rw [e]
  simp only [INT_MAX]
  omega

/-- C4 (evaluation at the failing inputs): "v0.0.0" leaves through the release
return with major = minor = patch = 0, and "v0.0.0-3-abc" reaches the end of the
function with major 0, minor 0, patch -1, distance 3, hash "abc"; neither result
is the failed sentinel, whatever the buffer `number` held. -/
theorem parse_version_zero_not_sentinel :
    parse_version zeroed "v0.0.0".toList = (Exit.release, ⟨0, 0, 0, -1, []⟩) ∧
    parse_version zeroed "v0.0.0-3-abc".toList
      = (Exit.dev, ⟨0, 0, -1, 3, "abc".toList⟩) ∧
    ∀ number, (parse_version number "v0.0.0".toList).2 ≠ fail_state ∧
      (parse_version number "v0.0.0-3-abc".toList).2 ≠ fail_state := by
  refine ⟨by decide, by decide, fun number => ⟨?_, ?_⟩⟩
  · intro h
    have h1 := congrArg ParsedVersion.point h
    simp [parse_version, strchr, NUL, fail_state, strncpy, cstr] at h1
    revert h1
    decide
  · intro h
    have h1 := congrArg ParsedVersion.hash h
    simp [parse_version, strchr, NUL, fail_state, strncpy, cstr] at h1

/-- C5 (evaluation at the failing input): "v5.x" has no `.` terminating the
minor and is rejected through the return of line 142, yet the major output is
at least 5, not -1, whatever the buffer `number` held; from a zeroed buffer the
outputs are major 5, minor -1, patch -1, distance -1, hash empty. -/
theorem parse_version_reject_keeps_major :
    parse_version zeroed "v5.x".toList = (Exit.bad_minor, ⟨5, -1, -1, -1, []⟩) ∧
    ∀ number, (parse_version number "v5.x".toList).1 = Exit.bad_minor ∧
      5 ≤ (parse_version number "v5.x".toList).2.major := by
  refine ⟨by decide, fun number => ⟨?_, ?_⟩⟩
  · simp [parse_version, strchr, NUL]
  · simp [parse_version, strchr, NUL, fail_state, strncpy, cstr]
    exact atoi_digit_ge _ _ (by decide) 5 (by decide)

/-- C6 (evaluation at the failing input): the development strings
"v1.2.3-1-a" and "v1.2.9-1-a" parse to the same outputs, and vercmp of the
first against the second is 0, not positive (same initial buffer content in
both calls).  The release witness holds: vercmp("v1.2.56", "v1.3.0") = 1. -/
theorem vercmp_dev_patch_ignored :
    (∀ number, (parse_version number "v1.2.3-1-a".toList).2
      = (parse_version number "v1.2.9-1-a".toList).2) ∧
    (∀ number, vercmp number number "v1.2.3-1-a".toList "v1.2.9-1-a".toList = 0) ∧
    vercmp zeroed zeroed "v1.2.56".toList "v1.3.0".toList = 1 := by
  have h : ∀ number, (parse_version number "v1.2.3-1-a".toList).2
      = (parse_version number "v1.2.9-1-a".toList).2 := by
    intro number
    simp [parse_version, strchr, NUL, fail_state, strncpy, cstr]
  refine ⟨h, fun number => ?_, by decide⟩
  simp only [vercmp, h number]
  simp [(strcmp_eq_zero_iff _ _).2 rfl]

/-- C7 (evaluation at the failing inputs): vercmp is the reference
lexicographic comparison of the two records produced by parse_version, and 100
differs from 1, -1 and 0; but the second call of parse_version finds in `number`
what the first call left ("12" after "v1.2.56-12-abcd") and reads the major as
12, so vercmp("v1.2.56-12-abcd", "v1.2.56-12-abcd") = 1, not 0, and
vercmp("v1.2.56-12-abcd", "v1.2.56-12-efgh") = 1, not 100 (first call from a
buffer of NUL bytes, or of letters). -/
theorem vercmp_witnesses_same_slot :
    (∀ c_number t_number current target,
      vercmp c_number t_number current target
        = compare_reference (parse_version c_number current).2
            (parse_version t_number target).2) ∧
    ((100 : Int) ≠ 1 ∧ (100 : Int) ≠ -1 ∧ (100 : Int) ≠ 0) ∧
    number_left zeroed "v1.2.56-12-abcd".toList = '1' :: '2' :: List.replicate 14 NUL ∧
    vercmp_same_slot zeroed "v1.2.56-12-abcd".toList "v1.2.56-12-abcd".toList = 1 ∧
    vercmp_same_slot zeroed "v1.2.56-12-abcd".toList "v1.2.56-12-efgh".toList = 1 ∧
    vercmp_same_slot (List.replicate 16 'x') "v1.2.56-12-abcd".toList
      "v1.2.56-12-abcd".toList = 1 ∧
    vercmp_same_slot (List.replicate 16 'x') "v1.2.56-12-abcd".toList
      "v1.2.56-12-efgh".toList = 1 := by
  refine ⟨?_, by decide, by decide, by decide, by decide, by decide, by decide⟩
  · intro nc nt cur tgt
    have hc := parse_version_hash_cstr nc cur
    have ht := parse_version_hash_cstr nt tgt
    unfold vercmp compare_reference
    generalize (parse_version nc cur).2 = c at hc ⊢
    generalize (parse_version nt tgt).2 = t at ht ⊢
    have hs : strcmp t.hash c.hash = 0 ↔ t.hash = c.hash := by
      rw [strcmp_eq_zero_iff, hc, ht]
    simp only [hs]
    rcases lt_trichotomy c.major t.major with h1 | h1 | h1
    · simp [List.find?, h1, h1.ne]
    · rcases lt_trichotomy c.minor t.minor with h2 | h2 | h2
      · simp [List.find?, h1, h2, h2.ne]
      · rcases lt_trichotomy c.point t.point with h3 | h3 | h3
        · simp [List.find?, h1, h2, h3, h3.ne]
        · rcases lt_trichotomy c.step t.step with h4 | h4 | h4
          · simp [List.find?, h1, h2, h3, h4, h4.ne]
          · simp [List.find?, h1, h2, h3, h4]
          · simp [List.find?, h1, h2, h3, h4, h4.ne', h4.not_lt, h4.le]
        · simp [List.find?, h1, h2, h3, h3.ne', h3.not_lt, h3.le]
      · simp [List.find?, h1, h2, h2.ne', h2.not_lt, h2.le]
    · simp [List.find?, h1, h1.ne', h1.not_lt, h1.le]

/-- C8 (evaluation at the failing input): "v1.2.3" parses (major 1, minor 2,
patch 3), "v5.x" is rejected through the return of line 142, and
vercmp("v1.2.3", "v5.x") = 1 (Newer), whatever the buffer held in the second
call. -/
theorem vercmp_rejected_target_newer :
    parse_version zeroed "v1.2.3".toList = (Exit.release, ⟨1, 2, 3, -1, []⟩) ∧
    (∀ number, (parse_version number "v5.x".toList).1 = Exit.bad_minor) ∧
    ∀ t_number, vercmp zeroed t_number "v1.2.3".toList "v5.x".toList = 1 := by
  refine ⟨by decide, fun number => ?_, fun t => ?_⟩
  · simp [parse_version, strchr, NUL]
  · have h1 : (parse_version zeroed "v1.2.3".toList).2.major = 1 := by decide
    have h2 : 5 ≤ (parse_version t "v5.x".toList).2.major := by
      simp [parse_version, strchr, NUL, fail_state, strncpy, cstr]
      exact atoi_digit_ge _ _ (by decide) 5 (by decide)
    unfold vercmp
    simp only []
    rw [if_pos (by omega)]

/-! ## Claims on the download session -/

theorem wrap32_add (s : Int) (g : Nat) : wrap32 (wrap32 s + g) = wrap32 (s + g) := by
  unfold wrap32; omega

theorem wrap32_ne_of_lt (x total : Int) (h0 : 0 ≤ x) (h : x < total) :
    wrap32 x ≠ total := by
  unfold wrap32; omega

theorem download_short (total_size : Int) :
    ∀ (polls : List Poll) (s : Int), 0 ≤ s → s + (received polls : Int) < total_size →
      Event.finalize ∉ download total_size (wrap32 s) polls ∧
      Event.restart ∉ download total_size (wrap32 s) polls := by
  intro polls
  induction polls with
  | nil => intro s _ _; simp [download]
  | cons p ps ih =>
    intro s hs h
    have hr : (received (p :: ps) : Int) = (bytes_read p : Int) + (received ps : Int) := by
      simp [received]
    rw [hr] at h
    unfold download
    by_cases ha : p.avail ≠ 0
    · have hb : bytes_read p = readBytes p (if p.avail > 128 then 128 else p.avail) := by
        simp [bytes_read, ha]
      rw [if_pos ha]
      simp only []
      rw [← hb, wrap32_add]
      have hne : wrap32 (s + (bytes_read p : Int)) ≠ total_size :=
        wrap32_ne_of_lt _ _ (by omega) (by omega)
      rw [if_neg hne]
      have := ih (s + (bytes_read p : Int)) (by omega) (by omega)
      simpa using this
    · have hb : bytes_read p = 0 := by simp [bytes_read, ha]
      rw [if_neg ha]
      exact ih s hs (by rw [hb] at h; simpa using h)

/-- C9: whatever the status, the expected total and the answer of
`Update.begin`, a session whose reads before the disconnect sum to fewer bytes
than `total_size` makes no call to `Update.end()` and no call to
`ESP.restart()`. -/
theorem ota_update_short_never_finalizes (httpCode total_size : Int) (begin_ok : Bool)
    (polls : List Poll) (h : (received polls : Int) < total_size) :
    Event.finalize ∉ ota_update httpCode total_size begin_ok polls ∧
    Event.restart ∉ ota_update httpCode total_size begin_ok polls := by
  unfold ota_update
  split_ifs
  · have := download_short total_size polls 0 (le_refl _) (by simpa using h)
    simpa [wrap32] using this
  · simp
  · simp

theorem ota_update_short_never_finalizes_witness :
    (received [⟨200, 200, 128, true, true, true⟩, ⟨0, 0, 0, true, true, true⟩,
        ⟨72, 71, 71, true, true, true⟩] : Int) < 200 ∧
    Event.finalize ∉ ota_update 200 200 true
      [⟨200, 200, 128, true, true, true⟩, ⟨0, 0, 0, true, true, true⟩,
        ⟨72, 71, 71, true, true, true⟩] ∧
    Event.restart ∉ ota_update 200 200 true
      [⟨200, 200, 128, true, true, true⟩, ⟨0, 0, 0, true, true, true⟩,
        ⟨72, 71, 71, true, true, true⟩] :=
  ⟨by decide, ota_update_short_never_finalizes 200 200 true _ (by decide)⟩

theorem received_cons (p : Poll) (ps : List Poll) :
    (received (p :: ps) : Int) = (bytes_read p : Int) + (received ps : Int) := by
  simp [received]

theorem received_append (xs ys : List Poll) :
    received (xs ++ ys) = received xs + received ys := by
  simp [received]

theorem count_finalize_write (g : Nat) (l : List Event) :
    List.count Event.finalize (Event.write g :: l) = List.count Event.finalize l := by
  rw [List.count_cons_of_ne (by simp)]

/-- One iteration of the loop on a read that does not complete the image. -/
theorem download_cons_miss (total_size cur : Int) (p : Poll) (ps : List Poll)
    (hp : p.avail ≠ 0) (h : wrap32 (cur + (bytes_read p : Int)) ≠ total_size) :
    download total_size cur (p :: ps)
      = Event.write (bytes_read p)
          :: download total_size (wrap32 (cur + (bytes_read p : Int))) ps := by
  have hb : bytes_read p = readBytes p (if p.avail > 128 then 128 else p.avail) := by
    simp [bytes_read, hp]
  rw [hb] at h ⊢
  rw [download, if_pos hp]
  simp only []
  rw [if_neg h]

/-- One iteration of the loop without available bytes. -/
theorem download_cons_idle (total_size cur : Int) (p : Poll) (ps : List Poll)
    (hp : ¬ p.avail ≠ 0) :
    download total_size cur (p :: ps) = download total_size cur ps := by
  rw [download, if_neg hp]

/-- One iteration of the loop on the read that completes the image. -/
theorem download_cons_hit (total_size cur : Int) (p : Poll) (ps : List Poll)
    (hp : p.avail ≠ 0) (h : wrap32 (cur + (bytes_read p : Int)) = total_size) :
    download total_size cur (p :: ps)
      = if p.end_ok = true ∧ (p.isFinished && p.canRollBack) = true then
          [Event.write (bytes_read p), Event.finalize, Event.restart]
        else Event.write (bytes_read p) :: Event.finalize :: download total_size total_size ps := by
  have hb : bytes_read p = readBytes p (if p.avail > 128 then 128 else p.avail) := by
    simp [bytes_read, hp]
  rw [hb] at h ⊢
  rw [download, if_pos hp]
  simp only []
  rw [if_pos h, h]
  by_cases h1 : p.end_ok = true <;> by_cases h2 : (p.isFinished && p.canRollBack) = true <;>
    simp [h1, h2]

/-- While the running count stays off `total_size`, a run of equal reads adds
no call to `Update.end()`. -/
theorem download_replicate_skip (total_size : Int) (p : Poll) (hp : p.avail ≠ 0)
    (rest : List Poll) :
    ∀ (n : Nat) (s : Int),
      (∀ k : Nat, 1 ≤ k → k ≤ n → wrap32 (s + k * (bytes_read p : Int)) ≠ total_size) →
      List.count Event.finalize
          (download total_size (wrap32 s) (List.replicate n p ++ rest))
        = List.count Event.finalize
          (download total_size (wrap32 (s + n * (bytes_read p : Int))) rest) := by
  intro n
  induction n with
  | zero => intro s _; simp
  | succ n ih =>
    intro s h
    have h1 := h 1 (le_refl _) (by omega)
    simp only [Nat.cast_one, one_mul] at h1
    rw [← wrap32_add] at h1
    rw [List.replicate_succ, List.cons_append, download_cons_miss _ _ _ _ hp h1,
      count_finalize_write, wrap32_add, ih (s + (bytes_read p : Int))]
    · congr 3
      push_cast
      ring
    · intro k hk1 hk2
      have := h (k + 1) (by omega) (by omega)
      have e : s + ((k + 1 : Nat) : Int) * (bytes_read p : Int)
          = s + (bytes_read p : Int) + (k : Int) * (bytes_read p : Int) := by
        push_cast
        ring
      rw [e] at this
      exact this

/-- After the image is complete, reads that return at least one byte each and
sum to fewer than 2^32 bytes bring no further call to `Update.end()`. -/
theorem download_after_complete (total_size : Int) :
    ∀ (polls : List Poll) (s : Int), 0 ≤ s →
      (∀ p ∈ polls, p.avail ≠ 0 → 0 < bytes_read p) →
      s + (received polls : Int) < 4294967296 →
      List.count Event.finalize (download total_size (wrap32 (total_size + s)) polls) = 0 := by
  intro polls
  induction polls with
  | nil => intro s _ _ _; simp [download]
  | cons p ps ih =>
    intro s hs hne h
    rw [received_cons] at h
    have hps : ∀ q ∈ ps, q.avail ≠ 0 → 0 < bytes_read q :=
      fun q hq => hne q (List.mem_cons_of_mem _ hq)
    by_cases ha : p.avail ≠ 0
    · have hg := hne p (List.mem_cons_self _ _) ha
      have hmiss : wrap32 (wrap32 (total_size + s) + (bytes_read p : Int)) ≠ total_size := by
        rw [wrap32_add]
        unfold wrap32
        omega
      rw [download_cons_miss _ _ _ _ ha hmiss, count_finalize_write, wrap32_add,
        add_assoc]
      exact ih (s + (bytes_read p : Int)) (by omega) hps (by omega)
    · have hb : bytes_read p = 0 := by simp [bytes_read, ha]
      rw [download_cons_idle _ _ _ _ ha]
      exact ih s hs hps (by rw [hb] at h; simpa using h)

/-- Reads that return at least one byte each and sum to exactly the missing
bytes bring exactly one call to `Update.end()`, also when fewer than 2^32
further bytes follow. -/
theorem download_until_complete (total_size : Int) (hhi : total_size < 2147483648)
    (post : List Poll) (hpost : ∀ p ∈ post, p.avail ≠ 0 → 0 < bytes_read p)
    (hbound : received post < 4294967296) :
    ∀ (pre : List Poll) (s : Int), 0 ≤ s → s < total_size →
      (∀ p ∈ pre, p.avail ≠ 0 → 0 < bytes_read p) →
      s + (received pre : Int) = total_size →
      List.count Event.finalize (download total_size (wrap32 s) (pre ++ post)) = 1 := by
  intro pre
  induction pre with
  | nil =>
    intro s _ hlt _ h
    simp [received] at h
    omega
  | cons p ps ih =>
    intro s hs hlt hne h
    rw [received_cons] at h
    have hps : ∀ q ∈ ps, q.avail ≠ 0 → 0 < bytes_read q :=
      fun q hq => hne q (List.mem_cons_of_mem _ hq)
    rw [List.cons_append]
    by_cases ha : p.avail ≠ 0
    · have hg := hne p (List.mem_cons_self _ _) ha
      have hw : wrap32 (wrap32 s + (bytes_read p : Int)) = s + (bytes_read p : Int) := by
        rw [wrap32_add]
        unfold wrap32
        omega
      by_cases hit : s + (bytes_read p : Int) = total_size
      · rw [download_cons_hit _ _ _ _ ha (by rw [hw, hit])]
        split_ifs
        · simp
        · have hz : received ps = 0 := by omega
          have hall : ∀ q ∈ ps ++ post, q.avail ≠ 0 → 0 < bytes_read q := by
            intro q hq
            rcases List.mem_append.1 hq with hq | hq
            · exact hps q hq
            · exact hpost q hq
          have h0 := download_after_complete total_size (ps ++ post) 0
            (le_refl _) hall (by rw [received_append, hz]; push_cast; omega)
          have e : wrap32 (total_size + 0) = total_size := by
            unfold wrap32; omega
          rw [e] at h0
          rw [count_finalize_write, List.count_cons_self, h0]
      · have hmiss : wrap32 (wrap32 s + (bytes_read p : Int)) ≠ total_size := by
          rw [hw]; exact hit
        rw [download_cons_miss _ _ _ _ ha hmiss, count_finalize_write, wrap32_add]
        exact ih (s + (bytes_read p : Int)) (by omega) (by omega) hps (by omega)
    · have hb : bytes_read p = 0 := by simp [bytes_read, ha]
      rw [download_cons_idle _ _ _ _ ha]
      exact ih s hs hlt hps (by rw [hb] at h; simpa using h)

/-- C10 (as stated, refuted): with `total_size` = 128 the first read of 128
bytes completes the image and `Update.end()` is called; the check is false, so
the loop goes on, and after 2^25 further reads of 128 bytes (2^32 bytes) the
32-bit `current_size` is 128 again and `Update.end()` is called a second
time. -/
theorem ota_update_finalize_again_after_wrap :
    received [full_read] = 128 ∧
    List.count Event.finalize
      (ota_update 200 128 true
        ([full_read] ++ (List.replicate 33554431 full_read ++ [full_read]))) = 2 := by
  refine ⟨by decide, ?_⟩
  have hp : full_read.avail ≠ 0 := by decide
  have hb : bytes_read full_read = 128 := by decide
  have h1 : wrap32 ((0 : Int) + (bytes_read full_read : Int)) = 128 := by
    rw [hb]; decide
  have hskip := download_replicate_skip 128 full_read hp [full_read] 33554431 128
    (by
      intro k hk1 hk2
      rw [hb]
      unfold wrap32
      push_cast
      omega)
  have e0 : wrap32 128 = 128 := by decide
  have e1 : wrap32 (128 + ((33554431 : Nat) : Int) * (bytes_read full_read : Int)) = 0 := by
    rw [hb]; decide
  rw [e0, e1] at hskip
  have hlast : download 128 0 [full_read]
      = [Event.write 128, Event.finalize] := by decide
  rw [hlast] at hskip
  unfold ota_update
  rw [if_pos rfl, if_pos rfl, List.singleton_append, download_cons_hit _ _ _ _ hp h1,
    if_neg (by decide), hb, count_finalize_write, List.count_cons_self, hskip]
  decide

/-- C10 (amended): in a session with status 200 and a successful
`Update.begin`, where `total_size` is a positive `int`, every read returns at
least one byte, the reads of `pre` sum to exactly `total_size` and fewer than
2^32 bytes are read afterwards (`post`), `Update.end()` is called exactly
once. -/
theorem ota_update_finalize_once (total_size : Int) (pre post : List Poll)
    (hpos : 0 < total_size) (hhi : total_size < 2147483648)
    (hne : ∀ p ∈ pre ++ post, p.avail ≠ 0 → 0 < bytes_read p)
    (hpre : (received pre : Int) = total_size)
    (hpost : received post < 4294967296) :
    List.count Event.finalize (ota_update 200 total_size true (pre ++ post)) = 1 := by
  unfold ota_update
  rw [if_pos rfl, if_pos rfl]
  have h := download_until_complete total_size hhi post
    (fun p hp => hne p (List.mem_append.2 (Or.inr hp))) hpost pre 0 (le_refl _) hpos
    (fun p hp => hne p (List.mem_append.2 (Or.inl hp))) (by omega)
  have e : wrap32 0 = 0 := by decide
  rw [e] at h
  exact h

theorem ota_update_finalize_once_witness :
    List.count Event.finalize
      (ota_update 200 200 true
        ([⟨128, 128, 128, true, true, false⟩, ⟨0, 0, 0, true, true, false⟩,
            ⟨72, 72, 72, true, true, false⟩]
          ++ [⟨300, 300, 128, false, true, false⟩, ⟨5, 5, 5, false, true, true⟩])) = 1 :=
  ota_update_finalize_once 200 _ _ (by decide) (by decide) (by decide) (by decide)
    (by decide)

/-! ## Claims on the version check -/

theorem cstr_append_nul (a r : List Char) : cstr (cstr a ++ NUL :: r) = cstr a := by
  induction a with
  | nil => simp [cstr]
  | cons x xs ih =>
    by_cases hx : x = NUL <;> simp [cstr, hx, ih]

/-- A string shorter than the buffer is copied whole and terminated. -/
theorem cstr_strncpy (dst src : List Char) (n : Nat) (h : (cstr src).length < n) :
    cstr (strncpy dst src n) = cstr src := by
  unfold strncpy
  simp only []
  rw [List.take_of_length_le (le_of_lt h)]
  obtain ⟨m, hm⟩ : ∃ m, n - (cstr src).length = m + 1 := ⟨n - (cstr src).length - 1, by omega⟩
  rw [hm, List.replicate_succ, List.append_assoc, List.cons_append, cstr_append_nul]

/-- C1 (as stated, refuted): with running version "v1.2.3", a fetched "v1.2.2"
starts the download although vercmp("v1.2.3", "v1.2.2") is -1 (Older), and with
running version "v1.2.3-1-a" a fetched "v1.2.3-1-b" starts the download
although vercmp is 100 (EqualDivergentHash). -/
theorem ota_update_check_downloads_older :
    (ota_update_check 32 "v1.2.3".toList id (List.replicate 32 NUL) 200
        "v1.2.2\n".toList).isSome = true ∧
    vercmp zeroed zeroed "v1.2.3".toList "v1.2.2".toList = -1 ∧
    (ota_update_check 32 "v1.2.3-1-a".toList id (List.replicate 32 NUL) 200
        "v1.2.3-1-b\n".toList).isSome = true ∧
    vercmp zeroed zeroed "v1.2.3-1-a".toList "v1.2.3-1-b".toList = 100 := by
  decide

/-- C1 (amended): after a version check with status 200 whose trimmed payload
fits the buffer `latest`, `ota_update` is called if and only if the fetched
version string differs from the running version string `AUTO_VERSION`; no
version comparison is made. -/
theorem ota_update_check_iff_differs (VERSION_LENGTH : Nat) (AUTO_VERSION : List Char)
    (OTA_FIRMWARE_URL : List Char → List Char) (latest payload : List Char)
    (h : (cstr (trim payload)).length < VERSION_LENGTH) :
    (ota_update_check VERSION_LENGTH AUTO_VERSION OTA_FIRMWARE_URL latest 200
        payload).isSome = true
      ↔ cstr (trim payload) ≠ cstr AUTO_VERSION := by
  unfold ota_update_check
  rw [if_pos rfl]
  simp only []
  have key := strcmp_eq_zero_iff (strncpy latest (trim payload) VERSION_LENGTH) AUTO_VERSION
  rw [cstr_strncpy latest (trim payload) VERSION_LENGTH h] at key
  split_ifs with h1
  · simpa using fun e => h1 (key.2 e)
  · simpa using key.1 (not_not.1 h1)

theorem ota_update_check_iff_differs_witness :
    (cstr (trim " v1.2.2\r\n".toList)).length < 32 ∧
    ((ota_update_check 32 "v1.2.3".toList id (List.replicate 32 NUL) 200
        " v1.2.2\r\n".toList).isSome = true
      ↔ cstr (trim " v1.2.2\r\n".toList) ≠ cstr "v1.2.3".toList) :=
  ⟨by decide, ota_update_check_iff_differs 32 _ id (List.replicate 32 NUL) _ (by decide)⟩

/-! ## Claims on restart and on sessions that do not start -/

/-- A restart in the trace of the loop comes from one iteration whose
`Update.end()` succeeded and whose check was true; the trace ends there. -/
theorem download_restart_origin (total_size : Int) :
    ∀ (polls : List Poll) (cur : Int), Event.restart ∈ download total_size cur polls →
      ∃ pre p post, polls = pre ++ p :: post ∧
        p.avail ≠ 0 ∧ p.end_ok = true ∧ p.isFinished = true ∧ p.canRollBack = true ∧
        Event.restart ∉ download total_size cur pre ∧
        download total_size cur polls
          = download total_size cur pre
            ++ [Event.write (bytes_read p), Event.finalize, Event.restart] := by
  intro polls
  induction polls with
  | nil => intro cur h; simp [download] at h
  | cons q qs ih =>
    intro cur h
    by_cases ha : q.avail ≠ 0
    · by_cases hit : wrap32 (cur + (bytes_read q : Int)) = total_size
      · rw [download_cons_hit _ _ _ _ ha hit] at h ⊢
        by_cases hs : q.end_ok = true ∧ (q.isFinished && q.canRollBack) = true
        · rw [if_pos hs]
          refine ⟨[], q, qs, rfl, ha, hs.1, ?_, ?_, by simp [download], by simp [download]⟩
          · have := hs.2; simp at this; exact this.1
          · have := hs.2; simp at this; exact this.2
        · rw [if_neg hs] at h ⊢
          have h1 : Event.restart ∈ download total_size total_size qs := by
            simpa using h
          obtain ⟨pre, p, post, e, hp, h2, h3, h4, h5, h6⟩ := ih total_size h1
          refine ⟨q :: pre, p, post, by rw [e]; rfl, hp, h2, h3, h4, ?_, ?_⟩
          · rw [download_cons_hit _ _ _ _ ha hit, if_neg hs]
            simpa using h5
          · rw [download_cons_hit _ _ _ _ ha hit, if_neg hs, h6]
            rfl
      · rw [download_cons_miss _ _ _ _ ha hit] at h ⊢
        have h1 : Event.restart ∈ download total_size
            (wrap32 (cur + (bytes_read q : Int))) qs := by
          simpa using h
        obtain ⟨pre, p, post, e, hp, h2, h3, h4, h5, h6⟩ := ih _ h1
        refine ⟨q :: pre, p, post, by rw [e]; rfl, hp, h2, h3, h4, ?_, ?_⟩
        · rw [download_cons_miss _ _ _ _ ha hit]
          simpa using h5
        · rw [download_cons_miss _ _ _ _ ha hit, h6]
          rfl
    · rw [download_cons_idle _ _ _ _ ha] at h ⊢
      obtain ⟨pre, p, post, e, hp, h2, h3, h4, h5, h6⟩ := ih cur h
      refine ⟨q :: pre, p, post, by rw [e]; rfl, hp, h2, h3, h4, ?_, ?_⟩
      · rw [download_cons_idle _ _ _ _ ha]; exact h5
      · rw [download_cons_idle _ _ _ _ ha]; exact h6

/-- C12: when the firmware request does not return status 200, or
`Update.begin(total_size)` returns false, `ota_update` makes no call at all to
`Update.write`, `Update.end()` or `ESP.restart()`, whatever the stream would
deliver. -/
theorem ota_update_not_started (httpCode total_size : Int) (begin_ok : Bool)
    (polls : List Poll) (h : httpCode ≠ 200 ∨ begin_ok = false) :
    ota_update httpCode total_size begin_ok polls = [] := by
  unfold ota_update
  rcases h with h | h
  · rw [if_neg h]
  · rw [h]; simp

theorem ota_update_not_started_witness :
    ((404 : Int) ≠ 200 ∨ true = false) ∧
    ota_update 404 128 true [full_read, full_read] = [] ∧
    ((200 : Int) ≠ 200 ∨ false = false) ∧
    ota_update 200 128 false [full_read, full_read] = [] :=
  ⟨Or.inl (by decide), ota_update_not_started 404 128 true _ (Or.inl (by decide)),
    Or.inr rfl, ota_update_not_started 200 128 false _ (Or.inr rfl)⟩

/-! ## Further claims on parse_version -/

/-- C13: for a string that is empty or whose first character is not `v`,
`parse_version` leaves through the first return with the failed sentinel:
major = minor = patch = distance = -1 and hash empty. -/
theorem parse_version_no_v (number verstr : List Char)
    (h : verstr = [] ∨ verstr.head? ≠ some 'v') :
    parse_version number verstr = (Exit.no_v, ⟨-1, -1, -1, -1, []⟩) := by
  cases verstr with
  | nil => simp [parse_version, fail_state]
  | cons v start =>
    have hv : v ≠ 'v' := by
      rcases h with h | h
      · simp at h
      · simpa using h
    simp [parse_version, fail_state, hv]

theorem parse_version_no_v_witness :
    ("1.2.3".toList = [] ∨ "1.2.3".toList.head? ≠ some 'v') ∧
    parse_version zeroed "1.2.3".toList = (Exit.no_v, ⟨-1, -1, -1, -1, []⟩) :=
  ⟨Or.inr (by decide), parse_version_no_v zeroed _ (Or.inr (by decide))⟩

/-- What `strchr` found: the characters before the offset hold neither the
character looked for nor a terminator, and the character is at the offset. -/
theorem strchr_some (c : Char) :
    ∀ (s : List Char) (n : Nat), strchr s c = some n →
      ∃ a r, s = a ++ c :: r ∧ a.length = n ∧ c ∉ a ∧ NUL ∉ a ∧ s.drop (n + 1) = r := by
  intro s
  induction s with
  | nil => intro n h; simp [strchr] at h
  | cons x xs ih =>
    intro n h
    unfold strchr at h
    by_cases hx : x = c
    · rw [if_pos hx] at h
      have hn : n = 0 := by simpa using h.symm
      subst hn
      exact ⟨[], xs, by simp [hx], rfl, by simp, by simp, by simp⟩
    · rw [if_neg hx] at h
      by_cases hz : x = NUL
      · rw [if_pos hz] at h; simp at h
      · rw [if_neg hz] at h
        cases hs : strchr xs c with
        | none => rw [hs] at h; simp at h
        | some m =>
          rw [hs] at h
          have hn : n = m + 1 := by simpa using h.symm
          subst hn
          obtain ⟨a, r, e, hl, hc, hnul, hd⟩ := ih m hs
          refine ⟨x :: a, r, by rw [e]; rfl, by simp [hl], ?_, ?_, by simpa using hd⟩
          · simp only [List.mem_cons, not_or]
            exact ⟨fun h => hx h.symm, hc⟩
          · simp only [List.mem_cons, not_or]
            exact ⟨fun h => hz h.symm, hnul⟩

/-- C14 (evaluation at the failing input): a major field of exactly 16
characters is accepted: "v0000000000000001.2.3" leaves through the release
return, not through a rejecting one, with major at least 1 and patch 3, whatever
the buffer `number` held; from a zeroed buffer the outputs are major 1,
minor 2147483647, patch 3.  The same holds for a minor field of 16
characters ("v1.0000000000000002.3"). -/
theorem parse_version_accepts_sixteen :
    (∀ number, (parse_version number "v0000000000000001.2.3".toList).1 = Exit.release ∧
      1 ≤ (parse_version number "v0000000000000001.2.3".toList).2.major ∧
      (parse_version number "v0000000000000001.2.3".toList).2.point = 3) ∧
    parse_version zeroed "v0000000000000001.2.3".toList
      = (Exit.release, ⟨1, 2147483647, 3, -1, []⟩) ∧
    parse_version zeroed "v1.0000000000000002.3".toList
      = (Exit.release, ⟨1, 2, 3, -1, []⟩) := by
  refine ⟨fun number => ⟨?_, ?_, ?_⟩, by decide, by decide⟩
  · simp [parse_version, strchr, NUL]
  · simp [parse_version, strchr, NUL, fail_state, strncpy, cstr]
    rw [atoi_of_digit _ _ (by decide)]
    have h := digits_ge (List.drop 16 number) 1
    have e : digits ('0'.toNat - 48)
        ('0' :: '0' :: '0' :: '0' :: '0' :: '0' :: '0' :: '0' :: '0' :: '0' :: '0' ::
          '0' :: '0' :: '0' :: '1' :: List.drop 16 number)
        = digits 1 (List.drop 16 number) := by
      simp [digits, isdigit]
    rw [e]
    simp only [INT_MAX]
    omega
  · simp [parse_version, strchr, NUL, fail_state, strncpy, cstr]
    decide

/-- C15 (as stated, refuted): "v1.2.3-4-" parses through the development
return with distance 4 and an empty hash, whatever the buffer `number` held
(from a zeroed buffer: major 1, minor 2, patch -1, distance 4, hash empty). -/
theorem parse_version_distance_without_hash :
    (∀ number, (parse_version number "v1.2.3-4-".toList).1 = Exit.dev ∧
      4 ≤ (parse_version number "v1.2.3-4-".toList).2.step ∧
      (parse_version number "v1.2.3-4-".toList).2.hash = []) ∧
    parse_version zeroed "v1.2.3-4-".toList = (Exit.dev, ⟨1, 2, -1, 4, []⟩) := by
  refine ⟨fun number => ⟨?_, ?_, ?_⟩, by decide⟩
  · simp [parse_version, strchr, NUL, fail_state]
  · simp [parse_version, strchr, NUL, fail_state, strncpy, cstr]
    exact atoi_digit_ge _ _ (by decide) 4 (by decide)
  · simp [parse_version, strchr, NUL, fail_state, strncpy, cstr]

/-- C15 (amended): on every input on which `parse_version` succeeds, either it
left through the release return, and then distance = -1 and hash is empty, or
it left through the development return, and then the input reads
`v a . b . c - d - rest` (no `.` in `a` and `b`, no `-` in `c` and `d`) and
hash is the C string `rest`, verbatim, empty when nothing follows the second
`-`. -/
theorem parse_version_success_shape (number verstr : List Char)
    (h : (parse_version number verstr).1 = Exit.release ∨
      (parse_version number verstr).1 = Exit.dev) :
    ((parse_version number verstr).1 = Exit.release ∧
      (parse_version number verstr).2.step = -1 ∧
      (parse_version number verstr).2.hash = []) ∨
    ((parse_version number verstr).1 = Exit.dev ∧
      ∃ a b c d rest,
        verstr = 'v' :: (a ++ '.' :: (b ++ '.' :: (c ++ '-' :: (d ++ '-' :: rest)))) ∧
        '.' ∉ a ∧ '.' ∉ b ∧ '-' ∉ c ∧ '-' ∉ d ∧
        (parse_version number verstr).2.hash = cstr rest) := by
  cases verstr with
  | nil => simp [parse_version] at h
  | cons v start =>
    by_cases hv : v = 'v'
    swap
    · simp [-List.drop_drop, parse_version, hv] at h
    subst hv
    cases h1 : strchr start '.' with
    | none => simp [-List.drop_drop, parse_version, h1, NUL] at h
    | some n1 =>
      by_cases c1 : n1 > 16
      · simp [-List.drop_drop, parse_version, h1, c1, NUL] at h
      cases h2 : strchr (start.drop (n1 + 1)) '.' with
      | none => simp [-List.drop_drop, parse_version, h1, c1, h2, NUL] at h
      | some n2 =>
        by_cases c2 : n2 > 16
        · simp [-List.drop_drop, parse_version, h1, c1, h2, c2, NUL] at h
        cases h3 : strchr ((start.drop (n1 + 1)).drop (n2 + 1)) '-' with
        | none =>
          left
          simp [-List.drop_drop, parse_version, h1, c1, h2, c2, h3, NUL, fail_state]
        | some n3 =>
          cases h4 : strchr (((start.drop (n1 + 1)).drop (n2 + 1)).drop (n3 + 1)) '-' with
          | none => simp [-List.drop_drop, parse_version, h1, c1, h2, c2, h3, h4, NUL] at h
          | some n4 =>
            by_cases c4 : n4 > 16
            · simp [-List.drop_drop, parse_version, h1, c1, h2, c2, h3, h4, c4, NUL] at h
            right
            obtain ⟨a, r1, e1, _, ha, _, d1⟩ := strchr_some _ _ _ h1
            obtain ⟨b, r2, e2, _, hb, _, d2⟩ := strchr_some _ _ _ h2
            obtain ⟨c, r3, e3, _, hc, _, d3⟩ := strchr_some _ _ _ h3
            obtain ⟨d, r4, e4, _, hd, _, d4⟩ := strchr_some _ _ _ h4
            refine ⟨?_, a, b, c, d, r4, ?_, ha, hb, hc, hd, ?_⟩
            · simp [-List.drop_drop, parse_version, h1, c1, h2, c2, h3, h4, c4, NUL, fail_state]
            · rw [d1] at e2
              rw [d2] at e3
              rw [d3] at e4
              rw [e1, e2, e3, e4]
            · simp [-List.drop_drop, parse_version, h1, c1, h2, c2, h3, h4, c4, NUL, fail_state, d4]

theorem parse_version_success_shape_witness :
    ((parse_version zeroed "v1.2.3-4-".toList).1 = Exit.release ∨
      (parse_version zeroed "v1.2.3-4-".toList).1 = Exit.dev) ∧
    (((parse_version zeroed "v1.2.3-4-".toList).1 = Exit.release ∧
      (parse_version zeroed "v1.2.3-4-".toList).2.step = -1 ∧
      (parse_version zeroed "v1.2.3-4-".toList).2.hash = []) ∨
    ((parse_version zeroed "v1.2.3-4-".toList).1 = Exit.dev ∧
      ∃ a b c d rest,
        "v1.2.3-4-".toList
          = 'v' :: (a ++ '.' :: (b ++ '.' :: (c ++ '-' :: (d ++ '-' :: rest)))) ∧
        '.' ∉ a ∧ '.' ∉ b ∧ '-' ∉ c ∧ '-' ∉ d ∧
        (parse_version zeroed "v1.2.3-4-".toList).2.hash = cstr rest)) :=
  ⟨Or.inr (by decide), parse_version_success_shape zeroed _ (Or.inr (by decide))⟩

/-- C20: the sanity block of lines 169-180 never changes the result: for every
buffer content and every input, `parse_version` takes the same return with the
same outputs as the variant without the block, and never leaves through the
return inside the block. -/
theorem parse_version_sanity_block_dead (number verstr : List Char) :
    parse_version number verstr = parse_version_no_sanity number verstr ∧
    (parse_version number verstr).1 ≠ Exit.sanity := by
  cases verstr with
  | nil => simp [-List.drop_drop, parse_version, parse_version_no_sanity]
  | cons v start =>
    by_cases hv : v = 'v'
    swap
    · simp [-List.drop_drop, parse_version, parse_version_no_sanity, hv]
    subst hv
    cases h1 : strchr start '.' with
    | none => simp [-List.drop_drop, parse_version, parse_version_no_sanity, h1, NUL]
    | some n1 =>
      by_cases c1 : n1 > 16
      · simp [-List.drop_drop, parse_version, parse_version_no_sanity, h1, c1, NUL]
      cases h2 : strchr (start.drop (n1 + 1)) '.' with
      | none => simp [-List.drop_drop, parse_version, parse_version_no_sanity, h1, c1, h2, NUL]
      | some n2 =>
        by_cases c2 : n2 > 16
        · simp [-List.drop_drop, parse_version, parse_version_no_sanity, h1, c1, h2, c2, NUL]
        cases h3 : strchr ((start.drop (n1 + 1)).drop (n2 + 1)) '-' with
        | none => simp [-List.drop_drop, parse_version, parse_version_no_sanity, h1, c1, h2, c2, h3, NUL]
        | some n3 =>
          cases h4 : strchr (((start.drop (n1 + 1)).drop (n2 + 1)).drop (n3 + 1)) '-' with
          | none =>
            simp [-List.drop_drop, parse_version, parse_version_no_sanity, h1, c1, h2, c2, h3, h4, NUL]
          | some n4 =>
            by_cases c4 : n4 > 16
            · simp [-List.drop_drop, parse_version, parse_version_no_sanity, h1, c1, h2, c2, h3, h4, c4, NUL]
            · simp [-List.drop_drop, parse_version, parse_version_no_sanity, h1, c1, h2, c2, h3, h4, c4, NUL,
                fail_state]

/-- C16 (evaluation at the failing inputs): the development record
(1, 2, 56, 12, "abcd563") renders as "v1.2.56-12-abcd563" and the release
record (12, 3, 4) as "v12.3.4"; parsing the rendering gives back neither
record, whatever the buffer `number` held (patch -1 instead of 56 in the first,
minor at least 32 instead of 3 in the second). -/
theorem parse_version_round_trip_fails :
    to_string ⟨1, 2, 56, 12, "abcd563".toList⟩ = "v1.2.56-12-abcd563".toList ∧
    (∀ number, (parse_version number (to_string ⟨1, 2, 56, 12, "abcd563".toList⟩)).2
      ≠ ⟨1, 2, 56, 12, "abcd563".toList⟩) ∧
    to_string ⟨12, 3, 4, -1, []⟩ = "v12.3.4".toList ∧
    (∀ number, (parse_version number (to_string ⟨12, 3, 4, -1, []⟩)).2
      ≠ ⟨12, 3, 4, -1, []⟩) := by
  have e1 : to_string ⟨1, 2, 56, 12, "abcd563".toList⟩ = "v1.2.56-12-abcd563".toList := by
    decide
  have e2 : to_string ⟨12, 3, 4, -1, []⟩ = "v12.3.4".toList := by decide
  refine ⟨e1, fun number h => ?_, e2, fun number h => ?_⟩
  · rw [e1] at h
    have h1 := congrArg ParsedVersion.point h
    simp [parse_version, strchr, NUL, fail_state] at h1
  · rw [e2] at h
    have h1 := congrArg ParsedVersion.minor h
    simp [parse_version, strchr, NUL, fail_state, strncpy, cstr] at h1
    rw [atoi_of_digit _ _ (by decide)] at h1
    have h2 := digits_ge (List.drop 2 number) 32
    have e : digits ('3'.toNat - 48) ('2' :: List.drop 2 number)
        = digits 32 (List.drop 2 number) := by
      simp [digits, isdigit]
    rw [e] at h1
    simp only [INT_MAX] at h1
    omega

/-! ## Further claims on vercmp -/

/-- The outputs of `parse_version`, and with them the result of `vercmp`,
depend on what the uninitialised buffer `number` holds: with "12" in the buffer
of the second call, a string compares as newer than itself. -/
theorem vercmp_buffer_dependence :
    vercmp zeroed "12".toList "v1.2.56-12-abcd".toList "v1.2.56-12-abcd".toList = 1 := by
  decide

/-- C19 (evaluation at the failing inputs): the second call of parse_version
finds in `number` what the first call left, so a string can compare as newer
than itself and two strings as newer than each other:
vercmp("v1.10.0", "v1.10.0") = 1, not 0, and both
vercmp("v1.2.3-9-a", "v1.2.3-10-a") and vercmp("v1.2.3-10-a", "v1.2.3-9-a")
are 1 (first call from a buffer of NUL bytes, or of letters). -/
theorem vercmp_same_slot_not_antisymmetric :
    number_left zeroed "v1.10.0".toList = '1' :: '0' :: List.replicate 14 NUL ∧
    (parse_version zeroed "v1.10.0".toList).2.major = 1 ∧
    (parse_version (number_left zeroed "v1.10.0".toList) "v1.10.0".toList).2.major = 10 ∧
    vercmp_same_slot zeroed "v1.10.0".toList "v1.10.0".toList = 1 ∧
    vercmp_same_slot (List.replicate 16 'x') "v1.10.0".toList "v1.10.0".toList = 1 ∧
    vercmp_same_slot zeroed "v1.2.3-9-a".toList "v1.2.3-10-a".toList = 1 ∧
    vercmp_same_slot zeroed "v1.2.3-10-a".toList "v1.2.3-9-a".toList = 1 := by
  decide

/-! ## Claims on consecutive check cycles -/

/-- The decision of one check with status 200 on a payload that fits the
buffer: a download is started exactly when the fetched string differs from
`AUTO_VERSION`. -/
theorem ota_check_and_update_started (VERSION_LENGTH : Nat) (AUTO_VERSION : List Char)
    (OTA_FIRMWARE_URL : List Char → List Char) (c : Cycle) (h200 : c.httpCode = 200)
    (hfit : (cstr (trim c.payload)).length < VERSION_LENGTH) :
    (ota_check_and_update VERSION_LENGTH AUTO_VERSION OTA_FIRMWARE_URL c).1.isSome = true
      ↔ cstr (trim c.payload) ≠ cstr AUTO_VERSION := by
  have key := strcmp_eq_zero_iff (strncpy c.latest (trim c.payload) VERSION_LENGTH)
    AUTO_VERSION
  rw [cstr_strncpy c.latest (trim c.payload) VERSION_LENGTH hfit] at key
  unfold ota_check_and_update ota_update_check
  rw [h200, if_pos rfl]
  simp only []
  split_ifs with h1
  · simpa using fun e => h1 (key.2 e)
  · simpa using key.1 (not_not.1 h1)

/-- C17 (as stated, refuted): with running version "v1.2.3", two consecutive
passes fetch the same "v1.2.4"; the first downloads and finalizes without a
restart (the rollback check is false), and the second starts the download
again. -/
theorem etask_ota_second_cycle_downloads :
    etask_ota 32 "v1.2.3".toList id [stuck_cycle, stuck_cycle]
      = [(some "v1.2.4".toList, [Event.write 128, Event.finalize]),
         (some "v1.2.4".toList, [Event.write 128, Event.finalize])] := by
  decide

/-- C17 (amended): when two consecutive passes both fetch the same string `r`
with status 200 (`r` fitting the buffer) and the first does not restart the
device, both passes run, and each starts a download exactly when `r` differs
from the running version string `AUTO_VERSION`: the second starts one exactly
when the first did, and none is started when `r` equals the running version. -/
theorem etask_ota_second_cycle_repeats (VERSION_LENGTH : Nat) (AUTO_VERSION : List Char)
    (OTA_FIRMWARE_URL : List Char → List Char) (c1 c2 : Cycle)
    (h1 : c1.httpCode = 200) (h2 : c2.httpCode = 200)
    (hsame : c2.payload = c1.payload)
    (hfit : (cstr (trim c1.payload)).length < VERSION_LENGTH)
    (hno : Event.restart ∉
      (ota_check_and_update VERSION_LENGTH AUTO_VERSION OTA_FIRMWARE_URL c1).2) :
    etask_ota VERSION_LENGTH AUTO_VERSION OTA_FIRMWARE_URL [c1, c2]
      = [ota_check_and_update VERSION_LENGTH AUTO_VERSION OTA_FIRMWARE_URL c1,
         ota_check_and_update VERSION_LENGTH AUTO_VERSION OTA_FIRMWARE_URL c2] ∧
    ((ota_check_and_update VERSION_LENGTH AUTO_VERSION OTA_FIRMWARE_URL c1).1.isSome = true
      ↔ cstr (trim c1.payload) ≠ cstr AUTO_VERSION) ∧
    ((ota_check_and_update VERSION_LENGTH AUTO_VERSION OTA_FIRMWARE_URL c2).1.isSome = true
      ↔ cstr (trim c1.payload) ≠ cstr AUTO_VERSION) := by
  refine ⟨?_, ota_check_and_update_started _ _ _ c1 h1 hfit, ?_⟩
  · simp only [etask_ota, if_neg hno]
    split_ifs <;> rfl
  · have := ota_check_and_update_started VERSION_LENGTH AUTO_VERSION OTA_FIRMWARE_URL c2 h2
      (by rw [hsame]; exact hfit)
    rw [hsame] at this
    exact this

theorem etask_ota_second_cycle_repeats_witness :
    etask_ota 32 "v1.2.4".toList id [stuck_cycle, stuck_cycle]
      = [ota_check_and_update 32 "v1.2.4".toList id stuck_cycle,
         ota_check_and_update 32 "v1.2.4".toList id stuck_cycle] ∧
    ((ota_check_and_update 32 "v1.2.4".toList id stuck_cycle).1.isSome = true
      ↔ cstr (trim stuck_cycle.payload) ≠ cstr "v1.2.4".toList) ∧
    ((ota_check_and_update 32 "v1.2.4".toList id stuck_cycle).1.isSome = true
      ↔ cstr (trim stuck_cycle.payload) ≠ cstr "v1.2.4".toList) :=
  etask_ota_second_cycle_repeats 32 _ id stuck_cycle stuck_cycle (by decide) (by decide) rfl
    (by decide) (by decide)

/-! ## Claims on the running byte count -/

theorem bytes_read_with_written (f : Poll → Nat) (p : Poll) :
    bytes_read (with_written f p) = bytes_read p := rfl

theorem received_with_written (f : Poll → Nat) (polls : List Poll) :
    received (polls.map (with_written f)) = received polls := by
  simp [received, List.map_map, Function.comp_def, bytes_read_with_written]

/-- The loop does not look at the result of `Update.write`. -/
theorem download_with_written (total_size : Int) (f : Poll → Nat) :
    ∀ (polls : List Poll) (cur : Int),
      download total_size cur (polls.map (with_written f)) = download total_size cur polls := by
  intro polls
  induction polls with
  | nil => intro cur; rfl
  | cons p ps ih =>
    intro cur
    simp only [List.map_cons, download, ih]
    rfl

/-- The running count is the sum of the bytes read, stored in a 32-bit `int`. -/
theorem current_size_after_eq :
    ∀ (polls : List Poll) (s : Int),
      current_size_after (wrap32 s) polls = wrap32 (s + (received polls : Int)) := by
  intro polls
  induction polls with
  | nil => intro s; simp [current_size_after, received]
  | cons p ps ih =>
    intro s
    rw [received_cons]
    unfold current_size_after
    by_cases ha : p.avail ≠ 0
    · have hb : bytes_read p = readBytes p (if p.avail > 128 then 128 else p.avail) := by
        simp [bytes_read, ha]
      rw [if_pos ha]
      simp only []
      rw [← hb, wrap32_add, ih, add_assoc]
    · have hb : bytes_read p = 0 := by simp [bytes_read, ha]
      rw [if_neg ha, ih, hb]
      simp

/-- The trace of a sequence of iterations, split at any point before a
restart. -/
theorem download_append (total_size : Int) (rest : List Poll) :
    ∀ (pre : List Poll) (cur : Int), Event.restart ∉ download total_size cur pre →
      download total_size cur (pre ++ rest)
        = download total_size cur pre
          ++ download total_size (current_size_after cur pre) rest := by
  intro pre
  induction pre with
  | nil => intro cur _; simp [download, current_size_after]
  | cons p ps ih =>
    intro cur h
    rw [List.cons_append]
    by_cases ha : p.avail ≠ 0
    · have hb : bytes_read p = readBytes p (if p.avail > 128 then 128 else p.avail) := by
        simp [bytes_read, ha]
      have hc : current_size_after cur (p :: ps)
          = current_size_after (wrap32 (cur + (bytes_read p : Int))) ps := by
        rw [current_size_after, if_pos ha, hb]
      by_cases hit : wrap32 (cur + (bytes_read p : Int)) = total_size
      · rw [download_cons_hit _ _ _ _ ha hit] at h ⊢
        rw [download_cons_hit _ _ _ _ ha hit]
        by_cases hs : p.end_ok = true ∧ (p.isFinished && p.canRollBack) = true
        · rw [if_pos hs] at h
          simp at h
        · simp only [if_neg hs] at h ⊢
          have h1 : Event.restart ∉ download total_size total_size ps := by
            simpa using h
          rw [ih total_size h1, hc, hit]
          rfl
      · rw [download_cons_miss _ _ _ _ ha hit] at h ⊢
        rw [download_cons_miss _ _ _ _ ha hit]
        have h1 : Event.restart ∉ download total_size
            (wrap32 (cur + (bytes_read p : Int))) ps := by
          simpa using h
        rw [ih _ h1, hc]
        rfl
    · rw [download_cons_idle _ _ _ _ ha] at h ⊢
      rw [download_cons_idle _ _ _ _ ha, ih cur h, current_size_after, if_neg ha]

theorem received_replicate (n : Nat) (p : Poll) :
    received (List.replicate n p) = n * bytes_read p := by
  simp [received, List.map_replicate, List.sum_replicate]

/-- C18 (as stated, refuted): after 2^24 reads of 128 bytes in a session with
`total_size` = 1000 (no restart on the way) the sum of the chunk lengths read is
2147483648, and the 32-bit `current_size` holds -2147483648. -/
theorem current_size_wraps :
    received (List.replicate 16777216 full_read) = 2147483648 ∧
    Event.restart ∉ ota_update 200 1000 true (List.replicate 16777216 full_read) ∧
    current_size_after 0 (List.replicate 16777216 full_read) = -2147483648 := by
  have hb : bytes_read full_read = 128 := by decide
  have hr : received (List.replicate 16777216 full_read) = 2147483648 := by
    rw [received_replicate, hb]
  refine ⟨hr, ?_, ?_⟩
  · intro h
    unfold ota_update at h
    rw [if_pos rfl, if_pos rfl] at h
    obtain ⟨pre, p, post, e, _, _, _, h4, _, _⟩ := download_restart_origin _ _ _ h
    have hp : p ∈ List.replicate 16777216 full_read := by rw [e]; simp
    rw [List.eq_of_mem_replicate hp] at h4
    exact absurd h4 (by decide)
  · have h := current_size_after_eq (List.replicate 16777216 full_read) 0
    have e0 : wrap32 0 = 0 := by decide
    rw [e0, hr] at h
    rw [h]
    decide

/-- C18 (amended): the result of `Update.write` plays no part: with any other
write results the calls made are the same, and after any iterations the running
count is the sum of the bytes read stored in a 32-bit `int`, which is the sum
itself while that is below 2^31.  An iteration that follows iterations `pre`
without restart attempts `Update.end()` exactly when it reads from the stream
and leaves the running count equal to `total_size`. -/
theorem ota_update_count_ignores_write (total_size : Int) (f : Poll → Nat)
    (polls pre : List Poll) (p : Poll)
    (hno : Event.restart ∉ ota_update 200 total_size true pre) :
    ota_update 200 total_size true (polls.map (with_written f))
      = ota_update 200 total_size true polls ∧
    current_size_after 0 (polls.map (with_written f)) = wrap32 (received polls) ∧
    ((received polls : Int) < 2147483648 →
      current_size_after 0 (polls.map (with_written f)) = received polls) ∧
    List.count Event.finalize (ota_update 200 total_size true (pre ++ [p]))
      = List.count Event.finalize (ota_update 200 total_size true pre)
        + (if p.avail ≠ 0 ∧ wrap32 (received (pre ++ [p])) = total_size then 1 else 0) := by
  have e0 : wrap32 0 = 0 := by decide
  have hcs : ∀ l : List Poll, current_size_after 0 l = wrap32 (received l) := by
    intro l
    have h := current_size_after_eq l 0
    rw [e0] at h
    simpa using h
  refine ⟨?_, ?_, ?_, ?_⟩
  · simp only [ota_update, if_true, download_with_written]
  · rw [hcs, received_with_written]
  · intro hlt
    rw [hcs, received_with_written]
    unfold wrap32
    omega
  · unfold ota_update at hno ⊢
    simp only [if_pos, if_true] at hno ⊢
    rw [download_append _ _ _ _ hno, List.count_append, hcs pre]
    congr 1
    have hsum : wrap32 (wrap32 (received pre) + (bytes_read p : Int))
        = wrap32 ((received (pre ++ [p]) : Nat) : Int) := by
      rw [wrap32_add, received_append]
      simp [received]
    by_cases ha : p.avail ≠ 0
    · by_cases hit : wrap32 (wrap32 (received pre) + (bytes_read p : Int)) = total_size
      · rw [if_pos ⟨ha, by rw [← hsum]; exact hit⟩, download_cons_hit _ _ _ _ ha hit]
        split_ifs <;> simp [download]
      · rw [if_neg (fun h => hit (by rw [hsum]; exact h.2)),
          download_cons_miss _ _ _ _ ha hit]
        simp [download]
    · rw [download_cons_idle _ _ _ _ ha, if_neg (fun h => ha h.1)]
      simp [download]

theorem ota_update_count_ignores_write_witness :
    Event.restart ∉ ota_update 200 200 true [⟨128, 128, 100, true, true, true⟩] ∧
    (ota_update 200 200 true
        ([(⟨128, 128, 100, true, true, true⟩ : Poll), ⟨72, 72, 0, false, true, true⟩].map
          (with_written (fun _ => 7)))
      = ota_update 200 200 true
        [⟨128, 128, 100, true, true, true⟩, ⟨72, 72, 0, false, true, true⟩] ∧
    current_size_after 0
        ([(⟨128, 128, 100, true, true, true⟩ : Poll), ⟨72, 72, 0, false, true, true⟩].map
          (with_written (fun _ => 7)))
      = wrap32 (received
        [(⟨128, 128, 100, true, true, true⟩ : Poll), ⟨72, 72, 0, false, true, true⟩]) ∧
    ((received
        [(⟨128, 128, 100, true, true, true⟩ : Poll), ⟨72, 72, 0, false, true, true⟩] : Int)
        < 2147483648 →
      current_size_after 0
        ([(⟨128, 128, 100, true, true, true⟩ : Poll), ⟨72, 72, 0, false, true, true⟩].map
          (with_written (fun _ => 7)))
      = received
        [(⟨128, 128, 100, true, true, true⟩ : Poll), ⟨72, 72, 0, false, true, true⟩]) ∧
    List.count Event.finalize (ota_update 200 200 true
        ([(⟨128, 128, 100, true, true, true⟩ : Poll)] ++ [⟨72, 72, 0, false, true, true⟩]))
      = List.count Event.finalize
          (ota_update 200 200 true [⟨128, 128, 100, true, true, true⟩])
        + (if (⟨72, 72, 0, false, true, true⟩ : Poll).avail ≠ 0 ∧
            wrap32 (received ([(⟨128, 128, 100, true, true, true⟩ : Poll)]
              ++ [⟨72, 72, 0, false, true, true⟩])) = 200 then 1 else 0)) :=
  ⟨by decide, ota_update_count_ignores_write 200 (fun _ => 7) _ _ _ (by decide)⟩

/-! ## Claims on restart -/

/-- The calls of an iteration start with the write. -/
theorem download_head_ne_finalize (total_size : Int) :
    ∀ (polls : List Poll) (cur : Int) (t : List Event),
      download total_size cur polls ≠ Event.finalize :: t := by
  intro polls
  induction polls with
  | nil => intro cur t; simp [download]
  | cons q qs ih =>
    intro cur t
    by_cases ha : q.avail ≠ 0
    · by_cases hit : wrap32 (cur + (bytes_read q : Int)) = total_size
      · rw [download_cons_hit _ _ _ _ ha hit]
        split_ifs <;> simp
      · rw [download_cons_miss _ _ _ _ ha hit]
        simp
    · rw [download_cons_idle _ _ _ _ ha]
      exact ih cur t

/-- The iteration from which a restart comes has read from the stream and left
the running count equal to `total_size`. -/
theorem download_restart_count (total_size : Int) (polls : List Poll)
    (h : Event.restart ∈ download total_size 0 polls) :
    ∃ pre p post, polls = pre ++ p :: post ∧
      p.avail ≠ 0 ∧ p.end_ok = true ∧ p.isFinished = true ∧ p.canRollBack = true ∧
      wrap32 (received (pre ++ [p])) = total_size := by
  obtain ⟨pre, p, post, e, ha, h2, h3, h4, h5, h6⟩ :=
    download_restart_origin total_size polls 0 h
  refine ⟨pre, p, post, e, ha, h2, h3, h4, ?_⟩
  have hsplit := download_append total_size (p :: post) pre 0 h5
  rw [← e, h6] at hsplit
  have htail := List.append_cancel_left hsplit
  have e0 : wrap32 0 = 0 := by decide
  have hcs : current_size_after 0 pre = wrap32 (received pre) := by
    have := current_size_after_eq pre 0
    rw [e0] at this
    simpa using this
  have hsum : wrap32 (current_size_after 0 pre + (bytes_read p : Int))
      = wrap32 ((received (pre ++ [p]) : Nat) : Int) := by
    rw [hcs, wrap32_add, received_append]
    simp [received]
  by_cases hit : wrap32 (current_size_after 0 pre + (bytes_read p : Int)) = total_size
  · rw [← hsum]; exact hit
  · rw [download_cons_miss _ _ _ _ ha hit] at htail
    have h7 : download total_size
        (wrap32 (current_size_after 0 pre + (bytes_read p : Int))) post
        = Event.finalize :: [Event.restart] := by
      have := (List.cons.inj htail.symm).2
      exact this
    exact absurd h7 (download_head_ne_finalize _ _ _ _)

/-- C11 (as stated, refuted): with `total_size` = 128 the first iteration reads
128 bytes and `Update.end()` fails; the loop goes on, the next read returns no
byte, the count is still 128, `Update.end()` is called again, succeeds with a
true check, and the device restarts: a restart in a session in which finalize
failed. -/
theorem ota_update_restart_after_failed_finalize :
    ota_update 200 128 true
        [⟨128, 128, 128, false, true, true⟩, ⟨5, 0, 0, true, true, true⟩]
      = [Event.write 128, Event.finalize, Event.write 0, Event.finalize,
          Event.restart] := by
  decide

/-- C11 (amended): a restart is requested only by an iteration of a session
(status 200, `Update.begin` succeeded) in which `Update.end()` returned success
and `Update.isFinished()` and `Update.canRollBack()` were both true: the trace
then ends with that iteration's write, finalize, restart.  If every iteration
that calls `Update.end()` (it reads from the stream and leaves the running count
equal to `total_size`) gets a failure, or a success with a false check, no
restart is requested in the session. -/
theorem ota_update_restart_only_after_success (httpCode total_size : Int)
    (begin_ok : Bool) (polls : List Poll) :
    (Event.restart ∈ ota_update httpCode total_size begin_ok polls →
      httpCode = 200 ∧ begin_ok = true ∧
      ∃ pre p post, polls = pre ++ p :: post ∧
        p.avail ≠ 0 ∧ p.end_ok = true ∧ p.isFinished = true ∧ p.canRollBack = true ∧
        Event.restart ∉ ota_update httpCode total_size begin_ok pre ∧
        ota_update httpCode total_size begin_ok polls
          = ota_update httpCode total_size begin_ok pre
            ++ [Event.write (bytes_read p), Event.finalize, Event.restart]) ∧
    ((∀ pre p post, polls = pre ++ p :: post → p.avail ≠ 0 →
        wrap32 (received (pre ++ [p])) = total_size →
        p.end_ok = false ∨ (p.isFinished && p.canRollBack) = false) →
      Event.restart ∉ ota_update httpCode total_size begin_ok polls) := by
  constructor
  · intro h
    unfold ota_update at h ⊢
    by_cases h1 : httpCode = 200
    · by_cases h2 : begin_ok = true
      · simp only [if_pos h1, if_pos h2] at h ⊢
        exact ⟨h1, h2, download_restart_origin total_size polls 0 h⟩
      · simp [h1, h2] at h
    · simp [h1] at h
  · intro hall hmem
    unfold ota_update at hmem
    by_cases h1 : httpCode = 200
    · by_cases h2 : begin_ok = true
      · simp only [if_pos h1, if_pos h2] at hmem
        obtain ⟨pre, p, post, e, ha, h3, h4, h5, hc⟩ :=
          download_restart_count total_size polls hmem
        rcases hall pre p post e ha hc with h | h
        · rw [h3] at h; exact absurd h (by decide)
        · rw [h4, h5] at h; exact absurd h (by decide)
      · simp [h1, h2] at hmem
    · simp [h1] at hmem

theorem ota_update_restart_only_after_success_witness :
    (Event.restart ∈ ota_update 200 128 true [⟨128, 128, 128, true, true, true⟩] ∧
      ∃ pre p post, [(⟨128, 128, 128, true, true, true⟩ : Poll)] = pre ++ p :: post ∧
        p.avail ≠ 0 ∧ p.end_ok = true ∧ p.isFinished = true ∧ p.canRollBack = true ∧
        Event.restart ∉ ota_update 200 128 true pre ∧
        ota_update 200 128 true [⟨128, 128, 128, true, true, true⟩]
          = ota_update 200 128 true pre
            ++ [Event.write (bytes_read p), Event.finalize, Event.restart]) ∧
    Event.restart ∉ ota_update 200 128 true
      [⟨128, 128, 128, false, true, true⟩, ⟨5, 5, 5, true, true, true⟩] :=
  ⟨⟨by decide,
      ((ota_update_restart_only_after_success 200 128 true _).1 (by decide)).2.2⟩,
    (ota_update_restart_only_after_success 200 128 true _).2 (by
      intro pre p post e ha hc
      rcases pre with _ | ⟨a, _ | ⟨b, pre⟩⟩
      · simp only [List.nil_append, List.cons.injEq] at e
        rw [← e.1]
        exact Or.inl rfl
      · simp only [List.cons_append, List.nil_append, List.cons.injEq] at e
        rw [← e.1, ← e.2.1] at hc
        exact absurd hc (by decide)
      · simp at e)⟩

end EtaskOta
